import Mathlib

/-!
Verification model of the mxindex repository (a Matrix homeserver index
service written in Rust).  The definitions below are shallow embeddings of
the Rust source under src/: pure functions become Lean functions, the
database and the cache become explicit state, fallible operations return
Except/Option.  Theorems settle the frozen claims about the program.
-/

deriving instance DecidableEq for Except

namespace Mxindex

/-! ## String helpers

Rust's str::to_lowercase (used on ASCII domain/search data) is modelled by
per-character ASCII lowering, and Rust's slice join by a separator is
modelled by joinSep. -/

/-- ASCII lowercasing of a string, modelling str::to_lowercase and the
case folding Postgres ILIKE applies. -/
def strToLower (s : String) : String := ⟨s.data.map Char.toLower⟩

/-- Rust slice::join with a separator string. -/
def joinSep (sep : String) : List String → String
  | [] => ""
  | [x] => x
  | x :: xs => x ++ sep ++ joinSep sep xs

/-! ## SQL LIKE / Redis glob pattern matching

The repository delegates pattern matching to Postgres (LIKE and ILIKE in
db.rs get_filtered_servers) and to Redis (SCAN MATCH in
cache.rs invalidate_pattern).  We model the matching semantics those
engines apply: a LIKE pattern where the percent sign matches any sequence
and the underscore matches any single character, and a Redis glob where
the star matches any sequence and the question mark any single character.
Character classes and escapes are not used by any pattern the program
builds, so they are not modelled. -/

/-- Try the continuation on every suffix of the text: the semantics of a
percent (or star) wildcard. -/
def likeStar (matchRest : List Char → Bool) : List Char → Bool
  | [] => matchRest []
  | c :: ts => matchRest (c :: ts) || likeStar matchRest ts

/-- Core LIKE matcher over the pattern and the text, with the given
any-sequence and any-single wildcard characters. -/
def likeMatchAux (anySeq anyOne : Char) : List Char → List Char → Bool
  | [], t => t.isEmpty
  | a :: ps, t =>
    if a = anySeq then
      likeStar (likeMatchAux anySeq anyOne ps) t
    else
      match t with
      | [] => false
      | c :: ts => (a = anyOne || a = c) && likeMatchAux anySeq anyOne ps ts

/-- SQL LIKE: case-sensitive pattern match, percent matches any sequence,
underscore matches any single character. -/
def sql_like (text pat : String) : Bool :=
  likeMatchAux '%' '_' pat.data text.data

/-- SQL ILIKE: case-insensitive LIKE (Postgres folds both sides). -/
def sql_ilike (text pat : String) : Bool :=
  likeMatchAux '%' '_' (strToLower pat).data (strToLower text).data

/-- Redis glob matching as used by SCAN MATCH: star matches any sequence,
question mark matches any single character. -/
def globMatch (pat key : String) : Bool :=
  likeMatchAux '*' '?' pat.data key.data

/-! ## JSON values and serde decoding (services.rs response structs)

HTTP response bodies are modelled as a small JSON value type; the serde
Deserialize derivations of the response structs in services.rs are
modelled by explicit decoders with serde's semantics: a struct requires a
JSON object, unknown fields are ignored, an Option field is None when the
field is missing or null, and a type mismatch fails the whole decode. -/

inductive Json where
  | null
  | bool (b : Bool)
  | num (n : Int)
  | str (s : String)
  | arr (elems : List Json)
  | obj (fields : List (String × Json))

/-- Look a field up in a JSON object (first binding wins). -/
def Json.getField : Json → String → Option Json
  | .obj fields, key => fields.lookup key
  | _, _ => none

def Json.isObj : Json → Bool
  | .obj _ => true
  | _ => false

def Json.asString : Json → Option String
  | .str s => some s
  | _ => none

def Json.asBool : Json → Option Bool
  | .bool b => some b
  | _ => none

/-- serde i64 deserialization: a JSON integer within the i64 range. -/
def Json.asI64 : Json → Option Int
  | .num n => if -(2 ^ 63) ≤ n ∧ n < 2 ^ 63 then some n else none
  | _ => none

/-- serde Vec of String: a JSON array whose elements are all strings. -/
def decodeStringList : List Json → Option (List String)
  | [] => some []
  | j :: js =>
    match j.asString, decodeStringList js with
    | some s, some rest => some (s :: rest)
    | _, _ => none

def Json.asStringArray : Json → Option (List String)
  | .arr es => decodeStringList es
  | _ => none

/-- serde Option field: missing or null gives none; a present value must
decode or the whole struct decode fails. -/
def Json.optField (j : Json) (key : String) (dec : Json → Option α) :
    Option (Option α) :=
  match j.getField key with
  | none => some none
  | some .null => some none
  | some v => (dec v).map some

/-! The response structs of services.rs, with their serde field names. -/

structure WellKnownClientInfo where
  name : Option String
  description : Option String
  logo_url : Option String
  theme : Option String
deriving DecidableEq

structure WellKnownServerInfo where
  m_server : Option String
deriving DecidableEq

structure FederationVersionInfo where
  server : Option String
deriving DecidableEq

structure ChangePassword where
  enabled : Option Bool
deriving DecidableEq

structure RoomVersions where
  available : Option (List String)
deriving DecidableEq

structure Capabilities where
  change_password : Option ChangePassword
  room_versions : Option RoomVersions
deriving DecidableEq

structure CapabilitiesResponse where
  capabilities : Option Capabilities
deriving DecidableEq

structure PublicRoomsResponse where
  total_room_count_estimate : Option Int
deriving DecidableEq

structure VersionsResponse where
  versions : Option (List String)
deriving DecidableEq

def decodeWellKnownClientInfo (j : Json) : Option WellKnownClientInfo :=
  if j.isObj then do
    let n ← j.optField "name" Json.asString
    let d ← j.optField "description" Json.asString
    let l ← j.optField "logo_url" Json.asString
    let t ← j.optField "theme" Json.asString
    some ⟨n, d, l, t⟩
  else none

def decodeWellKnownServerInfo (j : Json) : Option WellKnownServerInfo :=
  if j.isObj then do
    let s ← j.optField "m.server" Json.asString
    some ⟨s⟩
  else none

def decodeFederationVersionInfo (j : Json) : Option FederationVersionInfo :=
  if j.isObj then do
    let s ← j.optField "server" Json.asString
    some ⟨s⟩
  else none

def decodeChangePassword (j : Json) : Option ChangePassword :=
  if j.isObj then do
    let e ← j.optField "enabled" Json.asBool
    some ⟨e⟩
  else none

/-- In services.rs the available field of m.room_versions is declared
Option of Vec of String, so a JSON object (the mapping real servers send)
fails this decode. -/
def decodeRoomVersions (j : Json) : Option RoomVersions :=
  if j.isObj then do
    let a ← j.optField "available" Json.asStringArray
    some ⟨a⟩
  else none

def decodeCapabilities (j : Json) : Option Capabilities :=
  if j.isObj then do
    let cp ← j.optField "m.change_password" decodeChangePassword
    let rv ← j.optField "m.room_versions" decodeRoomVersions
    some ⟨cp, rv⟩
  else none

def decodeCapabilitiesResponse (j : Json) : Option CapabilitiesResponse :=
  if j.isObj then do
    let c ← j.optField "capabilities" decodeCapabilities
    some ⟨c⟩
  else none

def decodePublicRoomsResponse (j : Json) : Option PublicRoomsResponse :=
  if j.isObj then do
    let t ← j.optField "total_room_count_estimate" Json.asI64
    some ⟨t⟩
  else none

def decodeVersionsResponse (j : Json) : Option VersionsResponse :=
  if j.isObj then do
    let v ← j.optField "versions" Json.asStringArray
    some ⟨v⟩
  else none

/-! ## The probe (services.rs MatrixService)

Each outbound HTTP request is modelled by its observable outcome: the
send failed (transport/DNS error), the response had a non-success status,
the response was 2xx but its body was not valid JSON, or the response was
2xx with a JSON body. -/

inductive HttpResult where
  | sendError
  | badStatus
  | invalidBody
  | ok (body : Json)

/-- The outcomes of the six endpoint requests issued for one domain by
discover_server_info. -/
structure ProbeEnv where
  capabilitiesResp : HttpResult
  publicRoomsResp : HttpResult
  wellKnownClientResp : HttpResult
  wellKnownServerResp : HttpResult
  clientVersionsResp : HttpResult
  federationVersionResp : HttpResult

/-- Rust's `as i32` cast of an i64: two's-complement truncation to 32
bits. -/
def wrapI32 (n : Int) : Int := (n + 2 ^ 31) % 2 ^ 32 - 2 ^ 31

/-- MatrixService::get_capabilities: any failure (send error, non-2xx,
undecodable body) degrades to None. -/
def get_capabilities : HttpResult → Option CapabilitiesResponse
  | .ok j => decodeCapabilitiesResponse j
  | _ => none

/-- MatrixService::get_public_rooms_count: send errors, non-2xx and
decode failures are errors; a decoded body yields the estimate (default
0) cast with `as i32`. -/
def get_public_rooms_count : HttpResult → Except Unit Int
  | .ok j =>
    match decodePublicRoomsResponse j with
    | none => .error ()
    | some data => .ok (wrapI32 (data.total_room_count_estimate.getD 0))
  | _ => .error ()

/-- MatrixService::fetch_well_known_client_info: a send error or a decode
failure of a 2xx body is an error; a non-2xx status yields four None
fields. -/
def fetch_well_known_client_info :
    HttpResult →
      Except Unit (Option String × Option String × Option String × Option String)
  | .sendError => .error ()
  | .badStatus => .ok (none, none, none, none)
  | .invalidBody => .error ()
  | .ok j =>
    match decodeWellKnownClientInfo j with
    | none => .error ()
    | some w => .ok (w.name, w.description, w.logo_url, w.theme)

/-- MatrixService::fetch_well_known_server_info: a send error or a decode
failure of a 2xx body is an error; a non-2xx status yields None. -/
def fetch_well_known_server_info : HttpResult → Except Unit (Option String)
  | .sendError => .error ()
  | .badStatus => .ok none
  | .invalidBody => .error ()
  | .ok j =>
    match decodeWellKnownServerInfo j with
    | none => .error ()
    | some w => .ok w.m_server

/-- MatrixService::get_server_version: versions list joined with a comma
and space. -/
def get_server_version : HttpResult → Except Unit String
  | .ok j =>
    match decodeVersionsResponse j with
    | none => .error ()
    | some data => .ok (joinSep ", " (data.versions.getD []))
  | _ => .error ()

/-- MatrixService::get_federation_version: the server field, default
empty. -/
def get_federation_version : HttpResult → Except Unit String
  | .ok j =>
    match decodeFederationVersionInfo j with
    | none => .error ()
    | some info => .ok (info.server.getD "")
  | _ => .error ()

/-- models.rs DiscoveredServerInfo. -/
structure DiscoveredServerInfo where
  name : Option String
  description : Option String
  logo_url : Option String
  theme : Option String
  registration_open : Option Bool
  public_rooms_count : Option Int
  version : Option String
  federation_version : Option String
  delegated_server : Option String
  room_versions : Option String
deriving DecidableEq

/-- MatrixService::discover_server_info: capabilities, public-rooms and
both version sub-probes degrade to unset fields on failure, while errors
of the two well-known sub-probes propagate with the question-mark
operator. -/
def discover_server_info (env : ProbeEnv) : Except Unit DiscoveredServerInfo :=
  let capabilities := get_capabilities env.capabilitiesResp
  let registrationOpen :=
    (capabilities.bind (·.capabilities)).bind (·.change_password) |>.bind (·.enabled)
  let roomVersions :=
    ((capabilities.bind (·.capabilities)).bind (·.room_versions) |>.bind
      (·.available)).map (joinSep ",")
  let publicRoomsCount := (get_public_rooms_count env.publicRoomsResp).toOption
  match fetch_well_known_client_info env.wellKnownClientResp with
  | .error e => .error e
  | .ok (n, d, l, t) =>
    let version := (get_server_version env.clientVersionsResp).toOption
    let federationVersion := (get_federation_version env.federationVersionResp).toOption
    match fetch_well_known_server_info env.wellKnownServerResp with
    | .error e => .error e
    | .ok delegatedServer =>
      .ok
        { name := n
          description := d
          logo_url := l
          theme := t
          registration_open := registrationOpen
          public_rooms_count := publicRoomsCount
          version := version
          federation_version := federationVersion
          delegated_server := delegatedServer
          room_versions := roomVersions }

/-! ## The index repository (db.rs)

The servers table is modelled as a list of rows in insertion order.  The
migration that creates the table is not under src/; following the spec,
the table carries a unique index on domain and a monotone surrogate id.
Postgres compares text exactly (case-sensitively) for equality and
uniqueness, and the id sequence always exceeds every existing id, so in a
sequential execution a fresh id is one more than the maximum.  Timestamps
are modelled by the insertion counter (monotone with respect to
mutations), since their values are never inspected except for ordering. -/

structure Server where
  id : Int
  domain : String
  name : Option String
  description : Option String
  logo_url : Option String
  theme : Option String
  registration_open : Option Bool
  public_rooms_count : Option Int
  version : Option String
  federation_version : Option String
  delegated_server : Option String
  room_versions : Option String
  created_at : Int
  updated_at : Int
deriving DecidableEq

structure NewServer where
  domain : String
  name : Option String := none
  description : Option String := none
  logo_url : Option String := none
  theme : Option String := none
  registration_open : Option Bool := none
  public_rooms_count : Option Int := none
  version : Option String := none
  federation_version : Option String := none
  delegated_server : Option String := none
  room_versions : Option String := none
deriving DecidableEq

structure ServerFilter where
  search : Option String := none
  registration_open : Option Bool := none
  has_rooms : Option Bool := none
  room_version : Option String := none
  sort_by : Option String := none
  sort_order : Option String := none
  limit : Option Int := none
  offset : Option Int := none

structure PaginatedServers where
  servers : List Server
  total : Int
  limit : Int
  offset : Int
deriving DecidableEq

def maxServerId (db : List Server) : Int :=
  db.foldr (fun s m => max s.id m) 0

/-- The row written by an INSERT, with the sequence-assigned id and the
insertion-time timestamps. -/
def mkServerRow (newId : Int) (ns : NewServer) : Server :=
  { id := newId
    domain := ns.domain
    name := ns.name
    description := ns.description
    logo_url := ns.logo_url
    theme := ns.theme
    registration_open := ns.registration_open
    public_rooms_count := ns.public_rooms_count
    version := ns.version
    federation_version := ns.federation_version
    delegated_server := ns.delegated_server
    room_versions := ns.room_versions
    created_at := newId
    updated_at := newId }

/-- The first row of the table ordered by id descending: the row with the
greatest id (ties keep the earlier row; ids are unique in reachable
states). -/
def firstByIdDescAux : Option Server → List Server → Option Server
  | best, [] => best
  | none, s :: rest => firstByIdDescAux (some s) rest
  | some b, s :: rest => firstByIdDescAux (some (if b.id < s.id then s else b)) rest

def firstByIdDesc (db : List Server) : Option Server :=
  firstByIdDescAux none db

/-- db.rs insert_server: INSERT the new row (the unique index on domain
rejects an exact duplicate), then re-query the row with the greatest id
rather than reading the inserted row back by key. -/
def insert_server (db : List Server) (ns : NewServer) :
    Except Unit (Server × List Server) :=
  if (db.map (·.domain)).contains ns.domain then .error ()
  else
    let db' := db ++ [mkServerRow (maxServerId db + 1) ns]
    match firstByIdDesc db' with
    | none => .error ()
    | some s => .ok (s, db')

/-- db.rs get_server_by_domain: exact (case-sensitive) equality on the
domain column. -/
def get_server_by_domain (db : List Server) (server_domain : String) :
    Option Server :=
  db.find? (fun s => s.domain == server_domain)

/-- The conjunction of the WHERE clauses that db.rs get_filtered_servers
applies to both its count query and its result query: ILIKE on
domain/name/description for search (pattern lowercased by the caller),
equality on registration_open, the has_rooms disjunction, and
case-sensitive LIKE on room_versions.  SQL predicates on a NULL column
are not true. -/
def matches_filter (filter : ServerFilter) (s : Server) : Bool :=
  (match filter.search with
   | none => true
   | some q =>
     let pattern := "%" ++ strToLower q ++ "%"
     sql_ilike s.domain pattern ||
       (match s.name with
        | none => false
        | some n => sql_ilike n pattern) ||
       (match s.description with
        | none => false
        | some d => sql_ilike d pattern)) &&
  (match filter.registration_open with
   | none => true
   | some reg_open => s.registration_open == some reg_open) &&
  (match filter.has_rooms with
   | none => true
   | some has_rooms =>
     if has_rooms then
       match s.public_rooms_count with
       | some c => decide (0 < c)
       | none => false
     else
       match s.public_rooms_count with
       | some c => decide (c ≤ 0)
       | none => true) &&
  (match filter.room_version with
   | none => true
   | some rv =>
     match s.room_versions with
     | none => false
     | some rvs => sql_like rvs ("%" ++ rv ++ "%"))

/-- Postgres ASC ordering on a nullable text column: NULLS LAST. -/
def optStrLeNullsLast : Option String → Option String → Bool
  | none, none => true
  | none, some _ => false
  | some _, none => true
  | some a, some b => decide (a ≤ b)

/-- Postgres ASC ordering on a nullable integer column: NULLS LAST. -/
def optIntLeNullsLast : Option Int → Option Int → Bool
  | none, none => true
  | none, some _ => false
  | some _, none => true
  | some a, some b => decide (a ≤ b)

/-- The ORDER BY of get_filtered_servers: the recognised sort_by values,
anything else falling back to created_at; DESC is the reverse of ASC
(nulls first, matching Postgres defaults). -/
def serverSortLe (sBy sOrd : String) (a b : Server) : Bool :=
  let asc := fun x y : Server =>
    match sBy with
    | "name" => optStrLeNullsLast x.name y.name
    | "domain" => decide (x.domain ≤ y.domain)
    | "public_rooms_count" => optIntLeNullsLast x.public_rooms_count y.public_rooms_count
    | _ => decide (x.created_at ≤ y.created_at)
  if sOrd = "asc" then asc a b else asc b a

def insertSorted (le : Server → Server → Bool) (x : Server) :
    List Server → List Server
  | [] => [x]
  | y :: ys => if le x y then x :: y :: ys else y :: insertSorted le x ys

def sortServers (le : Server → Server → Bool) : List Server → List Server
  | [] => []
  | x :: xs => insertSorted le x (sortServers le xs)

/-- db.rs get_filtered_servers: resolve limit (default 50, clamped to
1..100), offset (default 0, at least 0), sort_by (default created_at) and
sort_order (default desc); count the rows matching the filters; then run
the same filters again, order, offset and limit for the page. -/
def get_filtered_servers (db : List Server) (filter : ServerFilter) :
    PaginatedServers :=
  let limit := min 100 (max 1 (filter.limit.getD 50))
  let offset := max (filter.offset.getD 0) 0
  let sBy := filter.sort_by.getD "created_at"
  let sOrd := filter.sort_order.getD "desc"
  let total : Int := (db.filter (matches_filter filter)).length
  let sorted := sortServers (serverSortLe sBy sOrd) (db.filter (matches_filter filter))
  { servers := (sorted.drop offset.toNat).take limit.toNat
    total := total
    limit := limit
    offset := offset }

/-! ## The cache (cache.rs)

The Redis key space is modelled as an association list from keys to
stored values; a stored value is either a serialized paginated response
(what list_servers/search_servers cache) or some other serialized JSON
(e.g. a cached ServerInfo).  get on an entry of the wrong shape is a
decode error, which every caller treats as a miss.  Per-entry TTLs only
bound a value's lifetime and are not modelled (the model is time-free);
the connected state is assumed, since an unreachable cache degrades every
operation to a miss or a no-op. -/

inductive CacheEntry where
  | paginated (p : PaginatedServers)
  | raw (data : String)
deriving DecidableEq

abbrev CacheMap := List (String × CacheEntry)

def cacheLookup (c : CacheMap) (key : String) : Option CacheEntry :=
  (c.find? (fun kv => kv.fst == key)).map (·.snd)

/-- Redis DEL of one key. -/
def cacheDelete (c : CacheMap) (key : String) : CacheMap :=
  c.filter (fun kv => !(kv.fst == key))

/-- Redis SET: overwrite any existing binding for the key. -/
def cacheSet (c : CacheMap) (key : String) (v : CacheEntry) : CacheMap :=
  (key, v) :: cacheDelete c key

/-- cache.rs invalidate_pattern: SCAN the whole key space with MATCH and
DEL every matching key.  The cursor loop enumerates all keys, so the
net effect is deleting exactly the keys the glob matches. -/
def invalidate_pattern (c : CacheMap) (pat : String) : CacheMap :=
  c.filter (fun kv => !(globMatch pat kv.fst))

/-! ## The read/write path (routes.rs) -/

inductive ErrorKind where
  | invalid_server
  | invalid_domain
  | server_exists
  | discovery_failed
  | database_error
  | pool_error
deriving DecidableEq

/-- The domain validation shared by routes.rs add_server/server_info and
federation_discovery.rs add_server_to_index: non-empty, no slash, no
colon. -/
def domainValid (d : String) : Bool :=
  !(d.data.isEmpty) && !(d.data.contains '/') && !(d.data.contains ':')

structure AppState where
  db : List Server
  cache : CacheMap

/-- The NewServer built from a domain and a DiscoveredServerInfo, as in
routes.rs add_server and federation_discovery.rs add_server_to_index. -/
def newServerFrom (domain : String) (info : DiscoveredServerInfo) : NewServer :=
  { domain := domain
    name := info.name
    description := info.description
    logo_url := info.logo_url
    theme := info.theme
    registration_open := info.registration_open
    public_rooms_count := info.public_rooms_count
    version := info.version
    federation_version := info.federation_version
    delegated_server := info.delegated_server
    room_versions := info.room_versions }

/-- routes.rs add_server: validate the domain, reject when a row with the
exact domain exists, probe, insert, then invalidate the glob servers:*
and delete the server:info key for the domain.  The probe's outcomes are
supplied as env. -/
def add_server (st : AppState) (env : ProbeEnv) (domain : String) :
    Except ErrorKind Server × AppState :=
  if !(domainValid domain) then (.error .invalid_domain, st)
  else
    match get_server_by_domain st.db domain with
    | some _ => (.error .server_exists, st)
    | none =>
      match discover_server_info env with
      | .error _ => (.error .discovery_failed, st)
      | .ok info =>
        match insert_server st.db (newServerFrom domain info) with
        | .error _ => (.error .database_error, st)
        | .ok (server, db') =>
          let cache1 := invalidate_pattern st.cache "servers:*"
          let cache2 := cacheDelete cache1 ("server:info:" ++ domain)
          (.ok server, { db := db', cache := cache2 })

/-- The eight query parameters of the search route. -/
structure SearchParams where
  search : Option String := none
  registration_open : Option Bool := none
  has_rooms : Option Bool := none
  room_version : Option String := none
  sort_by : Option String := none
  sort_order : Option String := none
  limit : Option Int := none
  offset : Option Int := none

/-- The composite cache key routes.rs search_servers formats: every
absent string renders as empty, absent booleans render as empty, and
absent limit/offset render as 0. -/
def search_cache_key (p : SearchParams) : String :=
  "servers:search:" ++ p.search.getD "" ++ ":" ++
    ((p.registration_open.map toString).getD "") ++ ":" ++
    ((p.has_rooms.map toString).getD "") ++ ":" ++
    p.room_version.getD "" ++ ":" ++
    p.sort_by.getD "" ++ ":" ++
    p.sort_order.getD "" ++ ":" ++
    toString (p.limit.getD 0) ++ ":" ++
    toString (p.offset.getD 0)

/-- routes.rs search_servers: cache-through on the composite key; a hit
that decodes as a paginated response is returned as-is, anything else
falls through to the repository and repopulates the key. -/
def search_servers (st : AppState) (p : SearchParams) :
    PaginatedServers × AppState :=
  let key := search_cache_key p
  match cacheLookup st.cache key with
  | some (.paginated cached) => (cached, st)
  | _ =>
    let filter : ServerFilter :=
      { search := p.search
        registration_open := p.registration_open
        has_rooms := p.has_rooms
        room_version := p.room_version
        sort_by := p.sort_by
        sort_order := p.sort_order
        limit := p.limit
        offset := p.offset }
    let result := get_filtered_servers st.db filter
    (result, { st with cache := cacheSet st.cache key (.paginated result) })

/-! ## The discovery engine (federation_discovery.rs)

The peer probe discover_servers_from_federation (including its 10 s
timeout) is modelled by its outcome function: for each probed domain,
either an error or the list of peer domains in the order the HashSet
iterates them.  The per-domain probe outcomes used by
add_server_to_index are likewise supplied as a function. -/

/-- federation_discovery.rs server_exists_in_db: a count over rows whose
domain column equals the given string exactly. -/
def server_exists_in_db (db : List Server) (domain : String) : Bool :=
  decide (0 < (db.countP (fun s => s.domain == domain)))

/-- federation_discovery.rs add_server_to_index: reject invalid domains,
skip domains already persisted, probe, insert; every failure returns
false and leaves the table as it was. -/
def add_server_to_index (db : List Server) (env : ProbeEnv) (domain : String) :
    Bool × List Server :=
  if !(domainValid domain) then (false, db)
  else if server_exists_in_db db domain then (false, db)
  else
    match discover_server_info env with
    | .error _ => (false, db)
    | .ok info =>
      match insert_server db (newServerFrom domain info) with
      | .error _ => (false, db)
      | .ok (_, db') => (true, db')

structure EngineAcc where
  db : List Server
  discovered : List String
  next : List String
  added_count : Nat

/-- The inner loop of a discovery round over one probe's peer list: a
peer not yet in the discovered set is recorded, appended to the next
frontier, and added to the index. -/
def integrate_peers (env_of : String → ProbeEnv) (acc : EngineAcc) :
    List String → EngineAcc
  | [] => acc
  | p :: ps =>
    if acc.discovered.contains p then integrate_peers env_of acc ps
    else
      let (ok, db') := add_server_to_index acc.db (env_of p) p
      integrate_peers env_of
        { db := db'
          discovered := p :: acc.discovered
          next := acc.next ++ [p]
          added_count := acc.added_count + (if ok then 1 else 0) } ps

/-- The outer loop of a discovery round over the per-server probe
results: failed probes are logged and skipped. -/
def process_results (env_of : String → ProbeEnv) (acc : EngineAcc) :
    List (String × Except Unit (List String)) → EngineAcc
  | [] => acc
  | (_, .error _) :: rest => process_results env_of acc rest
  | (_, .ok peers) :: rest =>
    process_results env_of (integrate_peers env_of acc peers) rest

structure DiscoveryState where
  db : List Server
  discovered : List String
  frontier : List String
  added_count : Nat
  frontierLog : List (List String)

/-- One round of start_discovery: probe every frontier domain, integrate
the results, and truncate the next frontier to batch_size.  The frontier
that was probed is appended to the log. -/
def discovery_round (peers : String → Except Unit (List String))
    (env_of : String → ProbeEnv) (batch_size : Nat) (st : DiscoveryState) :
    DiscoveryState :=
  let results := st.frontier.map (fun s => (s, peers s))
  let acc := process_results env_of ⟨st.db, st.discovered, [], st.added_count⟩ results
  let next := if acc.next.length > batch_size then acc.next.take batch_size else acc.next
  { db := acc.db
    discovered := acc.discovered
    frontier := next
    added_count := acc.added_count
    frontierLog := st.frontierLog ++ [st.frontier] }

/-- The depth-limited loop of start_discovery: stop at max_depth rounds
or on an empty frontier. -/
def discovery_loop (peers : String → Except Unit (List String))
    (env_of : String → ProbeEnv) (batch_size : Nat) :
    Nat → DiscoveryState → DiscoveryState
  | 0, st => st
  | d + 1, st =>
    if st.frontier.isEmpty then st
    else discovery_loop peers env_of batch_size d (discovery_round peers env_of batch_size st)

/-- federation_discovery.rs start_discovery: the discovered set starts
empty, the frontier starts as the seed list. -/
def start_discovery (peers : String → Except Unit (List String))
    (env_of : String → ProbeEnv) (max_depth batch_size : Nat)
    (seed_servers : List String) (db : List Server) : DiscoveryState :=
  discovery_loop peers env_of batch_size max_depth
    { db := db
      discovered := []
      frontier := seed_servers
      added_count := 0
      frontierLog := [] }

/-- The states reachable by the write paths of the core: the empty index,
then any interleaving of route-level add_server calls and engine-level
add_server_to_index calls (the only operations that mutate the servers
table; a discovery run is a sequence of add_server_to_index calls). -/
inductive ReachableDb : List Server → Prop where
  | init : ReachableDb []
  | route_add (db : List Server) (cache : CacheMap) (env : ProbeEnv) (d : String) :
      ReachableDb db → ReachableDb ((add_server ⟨db, cache⟩ env d).snd.db)
  | engine_add (db : List Server) (env : ProbeEnv) (d : String) :
      ReachableDb db → ReachableDb (add_server_to_index db env d).snd

/-! ## Concrete fixtures used by counterexamples and witnesses -/

/-- A probe environment where every outbound request fails at transport
level. -/
def allFailEnv : ProbeEnv :=
  ⟨.sendError, .sendError, .sendError, .sendError, .sendError, .sendError⟩

/-- A probe environment where every endpoint answers with a non-success
status: the probe then succeeds with every field unset. -/
def allBadStatusEnv : ProbeEnv :=
  ⟨.badStatus, .badStatus, .badStatus, .badStatus, .badStatus, .badStatus⟩

/-- A DiscoveredServerInfo with every field unset. -/
def noneInfo : DiscoveredServerInfo :=
  ⟨none, none, none, none, none, none, none, none, none, none⟩

/-- The capabilities body of spec scenario 1: m.change_password enabled
and the available room versions given as a mapping from version keys to
objects. -/
def capMappingJson : Json :=
  .obj [("capabilities", .obj
    [("m.change_password", .obj [("enabled", .bool true)]),
     ("m.room_versions", .obj [("available", .obj
       [("6", .obj []), ("9", .obj [])])])])]

/-- The same capabilities with available given as an array of strings,
the only shape the declared Vec of String can decode. -/
def capArrayJson : Json :=
  .obj [("capabilities", .obj
    [("m.change_password", .obj [("enabled", .bool true)]),
     ("m.room_versions", .obj [("available", .arr [.str "6", .str "9"])])])]

/-- A publicRooms body with the given total_room_count_estimate. -/
def publicRoomsJson (n : Int) : Json :=
  .obj [("total_room_count_estimate", .num n)]

/-- A server record with only a domain, room_versions and an id, as
inserted rows look when every optional probe field is unset. -/
def rowWithRoomVersions (i : Int) (d : String) (rv : Option String) : Server :=
  { id := i
    domain := d
    name := none
    description := none
    logo_url := none
    theme := none
    registration_open := none
    public_rooms_count := none
    version := none
    federation_version := none
    delegated_server := none
    room_versions := rv
    created_at := i
    updated_at := i }

example : discover_server_info allBadStatusEnv = .ok noneInfo := by decide
example : discover_server_info allFailEnv = .error () := by decide

/-! ## C4: total is the filtered count, independent of limit/offset -/

/-- C4: for every repository state and filter, the total field of
get_filtered_servers equals the number of records satisfying the filter
predicates, and it does not change when limit and offset are replaced by
any other values. -/
theorem c4_total_independent_of_pagination (db : List Server)
    (f : ServerFilter) (l o : Option Int) :
    (get_filtered_servers db f).total =
        ((db.filter (matches_filter f)).length : Int) ∧
      (get_filtered_servers db { f with limit := l, offset := o }).total =
        (get_filtered_servers db f).total :=
  ⟨rfl, rfl⟩

/-! ## C5: case sensitivity of the substring predicates -/

/-- C5 counterexample: the record with room_versions
1,2,ORG.MATRIX.MSC3757 does not match the filter room_version org.matrix
(the room_version predicate uses case-sensitive LIKE with an unlowered
pattern), though the claim says it does; the same filter in matching case
does match. -/
theorem c5_counterexample :
    (get_filtered_servers
        [rowWithRoomVersions 1 "a.org" (some "1,2,ORG.MATRIX.MSC3757")]
        { room_version := some "org.matrix" }).total = 0 ∧
      (get_filtered_servers
        [rowWithRoomVersions 1 "a.org" (some "1,2,ORG.MATRIX.MSC3757")]
        { room_version := some "ORG.MATRIX" }).total = 1 ∧
      sql_like "1,2,ORG.MATRIX.MSC3757" ("%" ++ "org.matrix" ++ "%") = false := by
  refine ⟨?_, ?_, by decide⟩ <;> decide

/-- C5 amended: the search predicate is case-insensitive (ILIKE factors
through ASCII lowering of both the text and the pattern, so the
predicate is invariant under case changes of the search string), while
the room_version predicate is case-sensitive LIKE, as the counterexample
shows. -/
theorem c5_search_case_insensitive (f : ServerFilter) (q r : String)
    (s : Server) (hqr : strToLower q = strToLower r) :
    matches_filter { f with search := some q } s =
        matches_filter { f with search := some r } s ∧
      ∀ t p : String, sql_ilike t p = sql_like (strToLower t) (strToLower p) := by
  constructor
  · simp only [matches_filter, hqr]
  · intro t p
    rfl

theorem c5_search_case_insensitive_witness :
    strToLower "MATRIX" = strToLower "matrix" ∧
      (matches_filter { search := some "MATRIX" }
          (rowWithRoomVersions 1 "my.matrix.host" none) =
        matches_filter { search := some "matrix" }
          (rowWithRoomVersions 1 "my.matrix.host" none) ∧
      ∀ t p : String, sql_ilike t p = sql_like (strToLower t) (strToLower p)) :=
  ⟨by decide,
    c5_search_case_insensitive { } "MATRIX" "matrix"
      (rowWithRoomVersions 1 "my.matrix.host" none) (by decide)⟩

/-! ## C7: the public rooms count is wrapped, not clamped -/

/-- C7 counterexample: a negative estimate is recorded negative, and an
estimate of 2 to the 31st wraps to the most negative i32; neither is
clamped to the non-negative 32-bit range as claimed. -/
theorem c7_counterexample :
    get_public_rooms_count (.ok (publicRoomsJson (-5))) = .ok (-5) ∧
      ((-5 : Int) < 0) ∧
      get_public_rooms_count (.ok (publicRoomsJson (2 ^ 31))) =
        .ok (-(2 ^ 31)) := by
  refine ⟨by decide, by decide, by decide⟩

/-- C7 amended: the recorded count is the estimate cast with Rust's
`as i32`, i.e. reduced two's-complement modulo 2 to the 32nd into the
signed 32-bit range; it equals the estimate only when the estimate
already lies in the non-negative i32 range, and it can be negative. -/
theorem c7_wrapping_cast (n : Int) (h : -(2 ^ 63) ≤ n ∧ n < 2 ^ 63) :
    get_public_rooms_count (.ok (publicRoomsJson n)) = .ok (wrapI32 n) ∧
      -(2 ^ 31) ≤ wrapI32 n ∧ wrapI32 n < 2 ^ 31 ∧
      (n - wrapI32 n) % 2 ^ 32 = 0 ∧
      (0 ≤ n → n < 2 ^ 31 → wrapI32 n = n) := by
  refine ⟨?_, ?_, ?_, ?_, ?_⟩
  · have h1 : (-9223372036854775808 : Int) ≤ n := by omega
    have h2 : n < (9223372036854775808 : Int) := by omega
    simp [get_public_rooms_count, decodePublicRoomsResponse, publicRoomsJson,
      Json.isObj, Json.optField, Json.getField, Json.asI64, List.lookup, h1, h2]
  · unfold wrapI32; omega
  · unfold wrapI32; omega
  · unfold wrapI32; omega
  · intro h0 h31; unfold wrapI32; omega

theorem c7_wrapping_cast_witness :
    (-(2 ^ 63) ≤ (3000000000 : Int) ∧ (3000000000 : Int) < 2 ^ 63) ∧
      (get_public_rooms_count (.ok (publicRoomsJson 3000000000)) =
          .ok (wrapI32 3000000000) ∧
        -(2 ^ 31) ≤ wrapI32 3000000000 ∧ wrapI32 3000000000 < 2 ^ 31 ∧
        ((3000000000 : Int) - wrapI32 3000000000) % 2 ^ 32 = 0 ∧
        (0 ≤ (3000000000 : Int) → (3000000000 : Int) < 2 ^ 31 →
          wrapI32 3000000000 = 3000000000)) :=
  ⟨by decide, c7_wrapping_cast 3000000000 (by decide)⟩

/-! ## C6: the available-room-versions mapping cannot be decoded -/

/-- A probe environment realizing spec scenario 1: capabilities answer
with the mapping-shaped available field, publicRooms answers 42, the
remaining endpoints answer non-success. -/
def scenario1Env : ProbeEnv :=
  { capabilitiesResp := .ok capMappingJson
    publicRoomsResp := .ok (publicRoomsJson 42)
    wellKnownClientResp := .badStatus
    wellKnownServerResp := .badStatus
    clientVersionsResp := .badStatus
    federationVersionResp := .badStatus }

/-- C6: services.rs declares available as Vec of String, so the
mapping-shaped available field of spec scenario 1 fails the whole
capabilities decode: the probe records neither room_versions (claimed
comma-joined keys 6,9) nor registration_open (claimed true), while the
array shape the code can decode does produce them. -/
theorem c6_mapping_fails_decode :
    get_capabilities (.ok capMappingJson) = none ∧
      discover_server_info scenario1Env =
        .ok { noneInfo with public_rooms_count := some 42 } ∧
      (get_capabilities (.ok capArrayJson)).isSome = true ∧
      discover_server_info { scenario1Env with capabilitiesResp := .ok capArrayJson } =
        .ok { noneInfo with
                registration_open := some true
                public_rooms_count := some 42
                room_versions := some "6,9" } := by
  refine ⟨by decide, by decide, by decide, by decide⟩

/-! ## C1: which sub-probe failures are hard errors -/

/-- A probe environment where the capabilities and publicRooms endpoints
answer successfully with decodable bodies, but the well-known client
document is a 2xx response whose body is not valid JSON. -/
def wkcFailEnv : ProbeEnv :=
  { capabilitiesResp := .ok capArrayJson
    publicRoomsResp := .ok (publicRoomsJson 42)
    wellKnownClientResp := .invalidBody
    wellKnownServerResp := .badStatus
    clientVersionsResp := .badStatus
    federationVersionResp := .badStatus }

/-- C1 counterexample: with capabilities and publicRooms answering
successfully (the server is reachable), a failure of the optional
well-known client sub-probe alone makes discover_server_info return a
hard error instead of a DiscoveredInfo record with that field unset. -/
theorem c1_counterexample :
    (get_capabilities wkcFailEnv.capabilitiesResp).isSome = true ∧
      get_public_rooms_count wkcFailEnv.publicRoomsResp = .ok 42 ∧
      discover_server_info wkcFailEnv = .error () := by
  refine ⟨by decide, by decide, by decide⟩

/-- C1 amended: discover_server_info returns a hard error exactly when
the well-known client sub-probe or the well-known server sub-probe fails
hard (a transport error, or a success status whose body fails to
decode); failures of the capabilities, public-rooms, client-versions and
federation-version sub-probes, and non-success statuses of the
well-known endpoints, only leave fields unset. -/
theorem c1_hard_error_iff_well_known_failure (env : ProbeEnv) :
    discover_server_info env = .error () ↔
      (fetch_well_known_client_info env.wellKnownClientResp = .error () ∨
        fetch_well_known_server_info env.wellKnownServerResp = .error ()) := by
  unfold discover_server_info
  cases hc : fetch_well_known_client_info env.wellKnownClientResp with
  | error e => cases e; simp
  | ok v =>
    obtain ⟨n, d, l, t⟩ := v
    cases hs : fetch_well_known_server_info env.wellKnownServerResp with
    | error e => cases e; simp
    | ok w => simp

/-! ## Shared lemmas about insert_server -/

lemma id_le_maxServerId (db : List Server) : ∀ s ∈ db, s.id ≤ maxServerId db := by
  induction db with
  | nil => intro s hs; cases hs
  | cons a l ih =>
    intro s hs
    rcases List.mem_cons.mp hs with h | h
    · subst h
      show s.id ≤ max s.id (maxServerId l)
      exact le_max_left _ _
    · exact le_trans (ih s h) (le_max_right _ _)

lemma firstByIdDescAux_append_max (l : List Server) (x : Server) :
    ∀ acc : Option Server, (∀ b, acc = some b → b.id < x.id) →
      (∀ s ∈ l, s.id < x.id) →
      firstByIdDescAux acc (l ++ [x]) = some x := by
  induction l with
  | nil =>
    intro acc hacc _
    cases acc with
    | none => simp [firstByIdDescAux]
    | some b =>
      have hb := hacc b rfl
      simp [firstByIdDescAux, if_pos hb]
  | cons s l ih =>
    intro acc hacc hl
    have hs : s.id < x.id := hl s (List.mem_cons_self _ _)
    cases acc with
    | none =>
      show firstByIdDescAux (some s) (l ++ [x]) = some x
      refine ih (some s) (fun b hb => ?_) (fun t ht => hl t (List.mem_cons_of_mem _ ht))
      injection hb with h
      subst h
      exact hs
    | some b =>
      have hb := hacc b rfl
      show firstByIdDescAux (some (if b.id < s.id then s else b)) (l ++ [x]) = some x
      refine ih _ (fun c hc => ?_) (fun t ht => hl t (List.mem_cons_of_mem _ ht))
      injection hc with h
      subst h
      rcases lt_or_ge b.id s.id with hlt | hge
      · rw [if_pos hlt]; exact hs
      · rw [if_neg (not_lt.mpr hge)]; exact hb

/-- The success case of db.rs insert_server: the returned row is the row
just appended (with the fresh maximal id), the table grew by exactly that
row, and the new domain was not present before. -/
lemma insert_server_ok (db : List Server) (ns : NewServer) (s : Server)
    (db' : List Server) (h : insert_server db ns = .ok (s, db')) :
    s = mkServerRow (maxServerId db + 1) ns ∧
      db' = db ++ [s] ∧ ns.domain ∉ db.map (·.domain) ∧
      ∀ t ∈ db', t.id ≤ s.id := by
  simp only [insert_server] at h
  by_cases hc : (db.map (·.domain)).contains ns.domain
  · rw [if_pos hc] at h
    simp at h
  · rw [if_neg hc] at h
    have hfst : firstByIdDesc (db ++ [mkServerRow (maxServerId db + 1) ns]) =
        some (mkServerRow (maxServerId db + 1) ns) := by
      unfold firstByIdDesc
      apply firstByIdDescAux_append_max
      · intro b hb; cases hb
      · intro t ht
        have hle := id_le_maxServerId db t ht
        show t.id < (mkServerRow (maxServerId db + 1) ns).id
        simp only [mkServerRow]
        omega
    rw [hfst] at h
    simp only [Except.ok.injEq, Prod.mk.injEq] at h
    obtain ⟨hrow, hdb⟩ := h
    subst hrow
    refine ⟨rfl, hdb.symm, ?_, ?_⟩
    · intro hmem
      exact hc (List.elem_eq_true_of_mem hmem)
    · intro t ht
      rw [← hdb] at ht
      rcases List.mem_append.mp ht with h1 | h1
      · have hle := id_le_maxServerId db t h1
        show t.id ≤ (mkServerRow (maxServerId db + 1) ns).id
        simp only [mkServerRow]
        omega
      · rcases List.mem_singleton.mp h1 with rfl
        exact le_refl _

/-! ## C10: insert_server re-queries by maximal id and returns the
inserted row -/

/-- C10: a successful insert_server returns the row with the greatest id
of the whole table after the insert, which in a sequential execution is
exactly the row just inserted, its domain equal to the NewServer's. -/
theorem c10_insert_returns_inserted_row (db : List Server) (ns : NewServer)
    (s : Server) (db' : List Server) (h : insert_server db ns = .ok (s, db')) :
    s.domain = ns.domain ∧ db' = db ++ [s] ∧ s.id = maxServerId db + 1 ∧
      ∀ t ∈ db', t.id ≤ s.id := by
  obtain ⟨hrow, hdb, _, hmax⟩ := insert_server_ok db ns s db' h
  refine ⟨?_, hdb, ?_, hmax⟩
  · rw [hrow]; rfl
  · rw [hrow]; rfl

theorem c10_insert_returns_inserted_row_witness :
    insert_server [] { domain := "a.org" } =
        .ok (mkServerRow 1 { domain := "a.org" },
          [mkServerRow 1 { domain := "a.org" }]) ∧
      ((mkServerRow 1 { domain := "a.org" }).domain = "a.org" ∧
        [mkServerRow 1 { domain := "a.org" }] =
          [] ++ [mkServerRow 1 { domain := "a.org" }] ∧
        (mkServerRow 1 { domain := "a.org" }).id = maxServerId [] + 1 ∧
        ∀ t ∈ [mkServerRow 1 { domain := "a.org" }],
          t.id ≤ (mkServerRow 1 { domain := "a.org" }).id) :=
  ⟨by decide,
    c10_insert_returns_inserted_row [] { domain := "a.org" } _ _ (by decide)⟩

/-! ## Shared lemmas about the cache and the search route -/

lemma cacheLookup_cacheSet (c : CacheMap) (k : String) (v : CacheEntry) :
    cacheLookup (cacheSet c k v) k = some v := by
  unfold cacheLookup cacheSet
  rw [List.find?_cons_of_pos _ (by simp)]
  rfl

lemma search_servers_hit (st : AppState) (p : SearchParams)
    (r : PaginatedServers)
    (h : cacheLookup st.cache (search_cache_key p) = some (.paginated r)) :
    search_servers st p = (r, st) := by
  simp only [search_servers]
  rw [h]

lemma search_servers_miss (st : AppState) (p : SearchParams)
    (h : cacheLookup st.cache (search_cache_key p) = none) :
    search_servers st p =
      (get_filtered_servers st.db
          ⟨p.search, p.registration_open, p.has_rooms, p.room_version,
            p.sort_by, p.sort_order, p.limit, p.offset⟩,
        { st with
            cache := cacheSet st.cache (search_cache_key p)
              (.paginated (get_filtered_servers st.db
                ⟨p.search, p.registration_open, p.has_rooms, p.room_version,
                  p.sort_by, p.sort_order, p.limit, p.offset⟩)) }) := by
  simp only [search_servers]
  rw [h]

/-! ## C9: the search cache key does not separate result-distinguishing
filters -/

/-- C9: the cache key renders limit-absent and limit 0 identically (and
search-absent and empty search identically), while get_filtered_servers
resolves the former to limit 50 and the latter to limit 1; once the
limit-absent request has populated the key, the limit 0 request is
answered with the cached response of the other filter. -/
theorem c9_cache_key_collision (p : SearchParams) (st : AppState)
    (hmiss : cacheLookup st.cache
      (search_cache_key { p with limit := none }) = none) :
    search_cache_key { p with limit := none } =
        search_cache_key { p with limit := some 0 } ∧
      search_cache_key { p with search := none } =
        search_cache_key { p with search := some "" } ∧
      (∀ (db : List Server) (f : ServerFilter),
        (get_filtered_servers db { f with limit := none }).limit = 50 ∧
        (get_filtered_servers db { f with limit := some 0 }).limit = 1) ∧
      search_servers ((search_servers st { p with limit := none }).snd)
          { p with limit := some 0 } =
        search_servers st { p with limit := none } := by
  refine ⟨rfl, rfl, fun db f => ⟨rfl, rfl⟩, ?_⟩
  have h1 := search_servers_miss st { p with limit := none } hmiss
  have h2 : cacheLookup (search_servers st { p with limit := none }).snd.cache
      (search_cache_key { p with limit := some 0 }) =
      some (.paginated (search_servers st { p with limit := none }).fst) := by
    rw [h1]
    exact cacheLookup_cacheSet _ _ _
  have h3 := search_servers_hit _ { p with limit := some 0 } _ h2
  rw [h3]

theorem c9_cache_key_collision_witness :
    cacheLookup (AppState.mk [] []).cache
        (search_cache_key { ({} : SearchParams) with limit := none }) = none ∧
      (search_cache_key { ({} : SearchParams) with limit := none } =
          search_cache_key { ({} : SearchParams) with limit := some 0 } ∧
        search_cache_key { ({} : SearchParams) with search := none } =
          search_cache_key { ({} : SearchParams) with search := some "" } ∧
        (∀ (db : List Server) (f : ServerFilter),
        (get_filtered_servers db { f with limit := none }).limit = 50 ∧
          (get_filtered_servers db { f with limit := some 0 }).limit = 1) ∧
        search_servers
            ((search_servers (AppState.mk [] [])
              { ({} : SearchParams) with limit := none }).snd)
            { ({} : SearchParams) with limit := some 0 } =
          search_servers (AppState.mk [] [])
            { ({} : SearchParams) with limit := none }) :=
  ⟨by decide, c9_cache_key_collision {} (AppState.mk [] []) (by decide)⟩

/-! ## Shared lemmas about add_server and the cache write path -/

lemma cacheLookup_cacheDelete_ne (c : CacheMap) (key k : String) (h : k ≠ key) :
    cacheLookup (cacheDelete c key) k = cacheLookup c k := by
  induction c with
  | nil => rfl
  | cons kv rest ih =>
    simp only [cacheDelete, List.filter_cons]
    by_cases hm : kv.fst = key
    · rw [if_neg (by simp [hm])]
      have hne : (kv.fst == k) = false := by
        rw [hm]
        exact beq_eq_false_iff_ne.mpr fun he => h he.symm
      unfold cacheLookup at ih ⊢
      rw [List.find?_cons_of_neg _ (by simp [hne])]
      simpa [cacheDelete] using ih
    · rw [if_pos (by simp [hm])]
      unfold cacheLookup at ih ⊢
      by_cases hk : kv.fst = k
      · rw [List.find?_cons_of_pos _ (by simp [hk]),
          List.find?_cons_of_pos _ (by simp [hk])]
      · rw [List.find?_cons_of_neg _ (by simp [hk]),
          List.find?_cons_of_neg _ (by simp [hk])]
        simpa [cacheDelete] using ih

lemma cacheLookup_invalidate_of_not_match (c : CacheMap) (pat k : String)
    (h : globMatch pat k = false) :
    cacheLookup (invalidate_pattern c pat) k = cacheLookup c k := by
  induction c with
  | nil => rfl
  | cons kv rest ih =>
    simp only [invalidate_pattern, List.filter_cons]
    by_cases hm : globMatch pat kv.fst
    · rw [if_neg (by simp [hm])]
      have hne : (kv.fst == k) = false := by
        refine beq_eq_false_iff_ne.mpr fun he => ?_
        rw [he] at hm
        rw [hm] at h
        cases h
      unfold cacheLookup at ih ⊢
      rw [List.find?_cons_of_neg _ (by simp [hne])]
      simpa [invalidate_pattern] using ih
    · rw [if_pos (by simp [Bool.not_eq_true] at hm ⊢; exact hm)]
      unfold cacheLookup at ih ⊢
      by_cases hk : kv.fst = k
      · rw [List.find?_cons_of_pos _ (by simp [hk]),
          List.find?_cons_of_pos _ (by simp [hk])]
      · rw [List.find?_cons_of_neg _ (by simp [hk]),
          List.find?_cons_of_neg _ (by simp [hk])]
        simpa [invalidate_pattern] using ih

/-- Full case analysis of routes.rs add_server: either it fails and the
state is untouched, or it succeeds via a successful probe and insert and
performs the two cache writes. -/
lemma add_server_cases (st : AppState) (env : ProbeEnv) (d : String) :
    ((add_server st env d).fst.isOk = false ∧ (add_server st env d).snd = st) ∨
      ((add_server st env d).fst.isOk = true ∧
        ∃ info s db', discover_server_info env = .ok info ∧
          insert_server st.db (newServerFrom d info) = .ok (s, db') ∧
          (add_server st env d).snd =
            ⟨db', cacheDelete (invalidate_pattern st.cache "servers:*")
              ("server:info:" ++ d)⟩) := by
  simp only [add_server]
  split
  · left; exact ⟨rfl, rfl⟩
  · split
    · left; exact ⟨rfl, rfl⟩
    · split
      · left; exact ⟨rfl, rfl⟩
      · next info heqd =>
        split
        · left; exact ⟨rfl, rfl⟩
        · next s db' heqi =>
          right
          exact ⟨rfl, info, s, db', heqd, heqi, rfl⟩

/-- Full case analysis of federation_discovery.rs add_server_to_index. -/
lemma add_server_to_index_cases (db : List Server) (env : ProbeEnv) (d : String) :
    add_server_to_index db env d = (false, db) ∨
      ∃ info s db', discover_server_info env = .ok info ∧
        insert_server db (newServerFrom d info) = .ok (s, db') ∧
        add_server_to_index db env d = (true, db') := by
  simp only [add_server_to_index]
  split
  · left; rfl
  · split
    · left; rfl
    · split
      · left; rfl
      · next info heqd =>
        split
        · left; rfl
        · next s db' heqi =>
          right
          exact ⟨info, s, db', heqd, heqi, rfl⟩

/-- A successful insert keeps the domain column duplicate-free. -/
lemma db_after_insert_nodup (db : List Server) (ns : NewServer)
    (h : (db.map (·.domain)).Nodup) (s : Server) (db' : List Server)
    (hi : insert_server db ns = .ok (s, db')) :
    (db'.map (·.domain)).Nodup := by
  obtain ⟨hrow, hdb, hnot, _⟩ := insert_server_ok db ns s db' hi
  subst hdb
  rw [List.map_append, List.nodup_append]
  simp only [List.map_cons, List.map_nil]
  refine ⟨h, List.nodup_singleton _, fun a ha hb => ?_⟩
  rw [List.mem_singleton] at hb
  subst hb
  have hsd : s.domain = ns.domain := by subst hrow; rfl
  rw [hsd] at ha
  exact hnot ha

/-! ## C8: cache state after a successful add_server -/

/-- C8: whenever add_server succeeds, the resulting cache holds no key
matching the glob servers:* and does not hold server:info:d, while every
key matching neither is bound exactly as before. -/
theorem c8_cache_invalidation (st : AppState) (env : ProbeEnv) (d : String)
    (h : (add_server st env d).fst.isOk = true) :
    (∀ k v, (k, v) ∈ (add_server st env d).snd.cache →
        globMatch "servers:*" k = false ∧ k ≠ "server:info:" ++ d) ∧
      ∀ k, globMatch "servers:*" k = false → k ≠ "server:info:" ++ d →
        cacheLookup (add_server st env d).snd.cache k = cacheLookup st.cache k := by
  have hcache : (add_server st env d).snd.cache =
      cacheDelete (invalidate_pattern st.cache "servers:*")
        ("server:info:" ++ d) := by
    rcases add_server_cases st env d with ⟨hf, _⟩ | ⟨_, _, _, _, _, _, hsnd⟩
    · rw [hf] at h; cases h
    · rw [hsnd]
  rw [hcache]
  constructor
  · intro k v hkv
    simp only [cacheDelete, invalidate_pattern, List.mem_filter] at hkv
    obtain ⟨⟨_, h1⟩, h2⟩ := hkv
    constructor
    · simpa using h1
    · simpa using h2
  · intro k hk hne
    rw [cacheLookup_cacheDelete_ne _ _ _ hne,
      cacheLookup_invalidate_of_not_match _ _ _ hk]

/-- A populated cache for the C8 witness run. -/
def c8St : AppState :=
  { db := []
    cache := [("servers:list", .raw "cached"), ("server:info:a.org", .raw "cached"),
      ("server:info:b.org", .raw "kept")] }

theorem c8_cache_invalidation_witness :
    (add_server c8St allBadStatusEnv "a.org").fst.isOk = true ∧
      ((∀ k v, (k, v) ∈ (add_server c8St allBadStatusEnv "a.org").snd.cache →
          globMatch "servers:*" k = false ∧ k ≠ "server:info:" ++ "a.org") ∧
        ∀ k, globMatch "servers:*" k = false → k ≠ "server:info:" ++ "a.org" →
          cacheLookup (add_server c8St allBadStatusEnv "a.org").snd.cache k =
            cacheLookup c8St.cache k) :=
  ⟨by decide, c8_cache_invalidation c8St allBadStatusEnv "a.org" (by decide)⟩

/-! ## C3: domain uniqueness is case-sensitive, not case-insensitive -/

/-- The state after adding matrix.org to an empty index. -/
def c3St : AppState := (add_server ⟨[], []⟩ allBadStatusEnv "matrix.org").snd

/-- C3 counterexample: with matrix.org persisted, adding Matrix.org is
not refused as server_exists: the existence checks compare exactly, so
the add succeeds and two records whose domains differ only in case are
persisted. -/
theorem c3_counterexample :
    (add_server c3St allBadStatusEnv "Matrix.org").fst.isOk = true ∧
      (add_server c3St allBadStatusEnv "Matrix.org").snd.db.map (·.domain) =
        ["matrix.org", "Matrix.org"] ∧
      strToLower "matrix.org" = strToLower "Matrix.org" ∧
      server_exists_in_db c3St.db "Matrix.org" = false ∧
      (get_server_by_domain c3St.db "Matrix.org").isNone = true := by
  refine ⟨by decide, by decide, by decide, by decide, by decide⟩

/-- C3 amended: in every reachable repository state no two persisted
records have exactly equal domains (uniqueness and the existence checks
compare domains case-sensitively), and add_server surfaces server_exists
precisely for an exactly equal persisted domain. -/
theorem c3_domain_uniqueness_case_sensitive (db : List Server)
    (h : ReachableDb db) :
    (db.map (·.domain)).Nodup ∧
      ∀ (d : String) (env : ProbeEnv) (cache : CacheMap),
        domainValid d = true → d ∈ db.map (·.domain) →
        (add_server ⟨db, cache⟩ env d).fst = .error .server_exists := by
  constructor
  · induction h with
    | init => simp
    | route_add db cache env d hr ih =>
      rcases add_server_cases ⟨db, cache⟩ env d with ⟨_, hsnd⟩ |
          ⟨_, info, s, db', _, hi, hsnd⟩
      · rw [hsnd]; exact ih
      · rw [hsnd]; exact db_after_insert_nodup db _ ih s db' hi
    | engine_add db env d hr ih =>
      rcases add_server_to_index_cases db env d with heq |
          ⟨info, s, db', _, hi, heq⟩
      · rw [heq]; exact ih
      · rw [heq]; exact db_after_insert_nodup db _ ih s db' hi
  · intro d env cache hv hmem
    simp only [add_server]
    rw [if_neg (by simp [hv])]
    cases hg : get_server_by_domain db d with
    | some s => rfl
    | none =>
      exfalso
      obtain ⟨s, hs, hdom⟩ := List.mem_map.mp hmem
      unfold get_server_by_domain at hg
      rw [List.find?_eq_none] at hg
      exact hg s hs (by simp [hdom])

theorem c3_domain_uniqueness_case_sensitive_witness :
    ReachableDb ((add_server ⟨[], []⟩ allBadStatusEnv "a.org").snd.db) ∧
      ((((add_server ⟨[], []⟩ allBadStatusEnv "a.org").snd.db).map
          (·.domain)).Nodup ∧
        ∀ (d : String) (env : ProbeEnv) (cache : CacheMap),
          domainValid d = true →
          d ∈ ((add_server ⟨[], []⟩ allBadStatusEnv "a.org").snd.db).map (·.domain) →
          (add_server ⟨(add_server ⟨[], []⟩ allBadStatusEnv "a.org").snd.db, cache⟩
              env d).fst = .error .server_exists) :=
  ⟨.route_add [] [] allBadStatusEnv "a.org" .init,
    c3_domain_uniqueness_case_sensitive _
      (.route_add [] [] allBadStatusEnv "a.org" .init)⟩

/-! ## Shared lemmas about the discovery engine -/

lemma integrate_peers_spec (env_of : String → ProbeEnv) (ps : List String) :
    ∀ acc : EngineAcc, acc.next.Nodup → (∀ x ∈ acc.next, x ∈ acc.discovered) →
      (integrate_peers env_of acc ps).next.Nodup ∧
        (∀ x ∈ (integrate_peers env_of acc ps).next,
          x ∈ (integrate_peers env_of acc ps).discovered) ∧
        (∀ x ∈ acc.discovered, x ∈ (integrate_peers env_of acc ps).discovered) ∧
        (∀ x ∈ (integrate_peers env_of acc ps).next,
          x ∈ acc.next ∨ x ∉ acc.discovered) := by
  induction ps with
  | nil =>
    intro acc h1 h2
    exact ⟨h1, h2, fun x hx => hx, fun x hx => Or.inl hx⟩
  | cons p ps ih =>
    intro acc h1 h2
    by_cases hp : acc.discovered.contains p
    · have hstep : integrate_peers env_of acc (p :: ps) =
          integrate_peers env_of acc ps := by
        simp only [integrate_peers]
        rw [if_pos hp]
      rw [hstep]
      exact ih acc h1 h2
    · have hpnot : p ∉ acc.discovered := fun hmem =>
        hp (List.elem_eq_true_of_mem hmem)
      rcases hadd : add_server_to_index acc.db (env_of p) p with ⟨ok, db2⟩
      have hstep : integrate_peers env_of acc (p :: ps) =
          integrate_peers env_of
            { db := db2
              discovered := p :: acc.discovered
              next := acc.next ++ [p]
              added_count := acc.added_count + (if ok then 1 else 0) } ps := by
        simp only [integrate_peers]
        rw [if_neg hp, hadd]
      rw [hstep]
      have h1p : (acc.next ++ [p]).Nodup := by
        rw [List.nodup_append]
        refine ⟨h1, List.nodup_singleton _, fun a ha hb => ?_⟩
        rw [List.mem_singleton] at hb
        subst hb
        exact hpnot (h2 a ha)
      have h2p : ∀ x ∈ acc.next ++ [p], x ∈ p :: acc.discovered := by
        intro x hx
        rcases List.mem_append.mp hx with hx | hx
        · exact List.mem_cons_of_mem _ (h2 x hx)
        · rw [List.mem_singleton] at hx
          subst hx
          exact List.mem_cons_self _ _
      obtain ⟨hN, hM, hMono, hProv⟩ := ih
        { db := db2
          discovered := p :: acc.discovered
          next := acc.next ++ [p]
          added_count := acc.added_count + (if ok then 1 else 0) } h1p h2p
      refine ⟨hN, hM, ?_, ?_⟩
      · intro x hx
        exact hMono x (List.mem_cons_of_mem _ hx)
      · intro x hx
        rcases hProv x hx with hx1 | hx1
        · rcases List.mem_append.mp hx1 with hx2 | hx2
          · exact Or.inl hx2
          · rw [List.mem_singleton] at hx2
            subst hx2
            exact Or.inr hpnot
        · exact Or.inr fun hmem => hx1 (List.mem_cons_of_mem _ hmem)

lemma process_results_spec (env_of : String → ProbeEnv)
    (rs : List (String × Except Unit (List String))) :
    ∀ acc : EngineAcc, acc.next.Nodup → (∀ x ∈ acc.next, x ∈ acc.discovered) →
      (process_results env_of acc rs).next.Nodup ∧
        (∀ x ∈ (process_results env_of acc rs).next,
          x ∈ (process_results env_of acc rs).discovered) ∧
        (∀ x ∈ acc.discovered, x ∈ (process_results env_of acc rs).discovered) ∧
        (∀ x ∈ (process_results env_of acc rs).next,
          x ∈ acc.next ∨ x ∉ acc.discovered) := by
  induction rs with
  | nil =>
    intro acc h1 h2
    exact ⟨h1, h2, fun x hx => hx, fun x hx => Or.inl hx⟩
  | cons r rs ih =>
    intro acc h1 h2
    rcases r with ⟨server, res⟩
    cases res with
    | error e =>
      have hstep : process_results env_of acc ((server, .error e) :: rs) =
          process_results env_of acc rs := rfl
      rw [hstep]
      exact ih acc h1 h2
    | ok peerList =>
      have hstep : process_results env_of acc ((server, .ok peerList) :: rs) =
          process_results env_of (integrate_peers env_of acc peerList) rs := rfl
      rw [hstep]
      obtain ⟨hN1, hM1, hMono1, hProv1⟩ :=
        integrate_peers_spec env_of peerList acc h1 h2
      obtain ⟨hN2, hM2, hMono2, hProv2⟩ := ih _ hN1 hM1
      refine ⟨hN2, hM2, fun x hx => hMono2 x (hMono1 x hx), ?_⟩
      intro x hx
      rcases hProv2 x hx with hx1 | hx1
      · exact hProv1 x hx1
      · exact Or.inr fun hmem => hx1 (hMono1 x hmem)

lemma discovery_round_spec (peers : String → Except Unit (List String))
    (env_of : String → ProbeEnv) (batch_size : Nat) (st : DiscoveryState) :
    (discovery_round peers env_of batch_size st).frontierLog =
        st.frontierLog ++ [st.frontier] ∧
      (discovery_round peers env_of batch_size st).frontier.Nodup ∧
      (∀ x ∈ (discovery_round peers env_of batch_size st).frontier,
        x ∈ (discovery_round peers env_of batch_size st).discovered ∧
          x ∉ st.discovered) ∧
      ∀ x ∈ st.discovered,
        x ∈ (discovery_round peers env_of batch_size st).discovered := by
  obtain ⟨hN, hM, hMono, hProv⟩ :=
    process_results_spec env_of (st.frontier.map (fun s => (s, peers s)))
      ⟨st.db, st.discovered, [], st.added_count⟩ List.nodup_nil
      (fun x hx => absurd hx (List.not_mem_nil x))
  refine ⟨rfl, ?_, ?_, ?_⟩
  · show (if (process_results env_of ⟨st.db, st.discovered, [], st.added_count⟩
        (st.frontier.map (fun s => (s, peers s)))).next.length > batch_size then
          (process_results env_of ⟨st.db, st.discovered, [], st.added_count⟩
            (st.frontier.map (fun s => (s, peers s)))).next.take batch_size
        else (process_results env_of ⟨st.db, st.discovered, [], st.added_count⟩
          (st.frontier.map (fun s => (s, peers s)))).next).Nodup
    split
    · exact List.Nodup.sublist (List.take_sublist _ _) hN
    · exact hN
  · intro x hx
    have hxnext : x ∈ (process_results env_of
        ⟨st.db, st.discovered, [], st.added_count⟩
        (st.frontier.map (fun s => (s, peers s)))).next := by
      revert hx
      show x ∈ (if (process_results env_of ⟨st.db, st.discovered, [], st.added_count⟩
          (st.frontier.map (fun s => (s, peers s)))).next.length > batch_size then
            (process_results env_of ⟨st.db, st.discovered, [], st.added_count⟩
              (st.frontier.map (fun s => (s, peers s)))).next.take batch_size
          else (process_results env_of ⟨st.db, st.discovered, [], st.added_count⟩
            (st.frontier.map (fun s => (s, peers s)))).next) → _
      split
      · intro hx; exact List.take_subset _ _ hx
      · intro hx; exact hx
    refine ⟨hM x hxnext, ?_⟩
    rcases hProv x hxnext with hx1 | hx1
    · exact absurd hx1 (List.not_mem_nil x)
    · exact hx1
  · intro x hx
    exact hMono x hx

lemma discovery_loop_inv (peers : String → Except Unit (List String))
    (env_of : String → ProbeEnv) (batch_size : Nat) :
    ∀ (depth : Nat) (st : DiscoveryState),
      ((st.frontierLog ++ [st.frontier]).drop 1).flatten.Nodup →
      (∀ x ∈ ((st.frontierLog ++ [st.frontier]).drop 1).flatten,
        x ∈ st.discovered) →
      (((discovery_loop peers env_of batch_size depth st).frontierLog ++
          [(discovery_loop peers env_of batch_size depth st).frontier]).drop
            1).flatten.Nodup ∧
        ∀ x ∈ (((discovery_loop peers env_of batch_size depth st).frontierLog ++
            [(discovery_loop peers env_of batch_size depth st).frontier]).drop
              1).flatten,
          x ∈ (discovery_loop peers env_of batch_size depth st).discovered := by
  intro depth
  induction depth with
  | zero => intro st h1 h2; exact ⟨h1, h2⟩
  | succ d ih =>
    intro st h1 h2
    have hstep : discovery_loop peers env_of batch_size (d + 1) st =
        if st.frontier.isEmpty then st
        else discovery_loop peers env_of batch_size d
          (discovery_round peers env_of batch_size st) := rfl
    rw [hstep]
    by_cases hemp : st.frontier.isEmpty
    · rw [if_pos hemp]
      exact ⟨h1, h2⟩
    · rw [if_neg hemp]
      obtain ⟨hlog, hN, hFr, hMono⟩ := discovery_round_spec peers env_of batch_size st
      refine ih (discovery_round peers env_of batch_size st) ?_ ?_
      · rw [hlog, List.drop_append_of_le_length (by simp), List.flatten_append,
          List.nodup_append]
        refine ⟨h1, by simpa using hN, fun a ha hb => ?_⟩
        have hb2 : a ∈ (discovery_round peers env_of batch_size st).frontier := by
          simpa using hb
        exact (hFr a hb2).2 (h2 a ha)
      · intro x hx
        rw [hlog, List.drop_append_of_le_length (by simp),
          List.flatten_append] at hx
        rcases List.mem_append.mp hx with hx1 | hx1
        · exact hMono x (h2 x hx1)
        · have hx2 : x ∈ (discovery_round peers env_of batch_size st).frontier := by
            simpa using hx1
          exact (hFr x hx2).1

/-! ## C2: domains can re-enter the frontier -/

/-- Peer results where a.org reports b.org and b.org reports a.org. -/
def c2Peers : String → Except Unit (List String) := fun s =>
  if s == "a.org" then .ok ["b.org"]
  else if s == "b.org" then .ok ["a.org"] else .ok []

/-- C2 counterexample: seeds are never added to the discovered set, so
with seed a.org whose peer b.org reports a.org back, the frontiers of the
three rounds are a.org, b.org, a.org: the seed domain is probed in round
0 and again in round 2. -/
theorem c2_counterexample :
    (start_discovery c2Peers (fun _ => allFailEnv) 3 100 ["a.org"] []).frontierLog =
        [["a.org"], ["b.org"], ["a.org"]] ∧
      (start_discovery c2Peers (fun _ => allFailEnv) 3 100 ["a.org"]
          []).frontierLog.getD 0 [] = ["a.org"] ∧
      (start_discovery c2Peers (fun _ => allFailEnv) 3 100 ["a.org"]
          []).frontierLog.getD 2 [] = ["a.org"] := by
  refine ⟨by decide, by decide, by decide⟩

/-- C2 amended: across the frontiers probed after the seed round, every
domain occurs at most once (their concatenation has no duplicates): only
a seed domain can be probed twice, namely in round 0 and in at most one
later round, because seeds alone enter a frontier without being recorded
in the discovered set. -/
theorem c2_no_revisit_after_seed_round
    (peers : String → Except Unit (List String))
    (env_of : String → ProbeEnv) (max_depth batch_size : Nat)
    (seed_servers : List String) (db : List Server) :
    ((start_discovery peers env_of max_depth batch_size seed_servers
        db).frontierLog.drop 1).flatten.Nodup := by
  obtain ⟨hN, _⟩ := discovery_loop_inv peers env_of batch_size max_depth
    ⟨db, [], seed_servers, 0, []⟩ (by simp) (by simp)
  show ((discovery_loop peers env_of batch_size max_depth
      ⟨db, [], seed_servers, 0, []⟩).frontierLog.drop 1).flatten.Nodup
  rcases hlog : (discovery_loop peers env_of batch_size max_depth
      ⟨db, [], seed_servers, 0, []⟩).frontierLog with _ | ⟨l0, rest⟩
  · simp
  · rw [hlog] at hN
    rw [List.cons_append, List.drop_succ_cons, List.drop_zero,
      List.flatten_append] at hN
    rw [List.drop_succ_cons, List.drop_zero]
    exact (List.nodup_append.mp hN).1

end Mxindex
